import Mathlib

/-!
# gitpr (`src/index.js`): a shallow embedding and its verified properties

The program is one Node.js script.  It reads the working-tree status, refuses
to run when something is already staged, asks two batches of questions, and
then issues a fixed sequence of `git` commands before opening a GitHub
comparison page.

## Modelling conventions

* A JavaScript string is a finite sequence of UTF-16 code units.  It is
  modelled as `List Nat` (`JSString`); `js` encodes a Lean string literal into
  that form.  `length`, `slice`, `split`, `trim`, `startsWith`, `replace`,
  the regular expression of the branch validator and `JSON.stringify` all work
  on code units, exactly as in ECMAScript.
* `chalk` colouring only wraps text in terminal escape codes; it is modelled
  as the identity.
* Everything outside the script (the child processes, the prompt library, the
  libraries reading the repository, the browser opener) is an oracle stored
  in a `World`; the run of the script is a pure function of the `World` that
  returns the sequence of observable events and the exit status.
* The prompt library asks a question again until its `validate` function
  returns `true`; the validators are modelled as functions and the final
  answers are part of the `World`.
-/

namespace Gitpr

/-! ## JavaScript strings -/

/-- A JavaScript string: its UTF-16 code units. -/
abbrev JSString := List Nat

/-- UTF-16 encoding of one Unicode scalar value. -/
def utf16 (c : Char) : List Nat :=
  if c.toNat < 0x10000 then [c.toNat]
  else [0xD800 + (c.toNat - 0x10000) / 0x400, 0xDC00 + (c.toNat - 0x10000) % 0x400]

/-- The JavaScript string denoted by a source literal. -/
def js (s : String) : JSString :=
  (s.toList.map utf16).flatten

/-- `String.prototype.startsWith(searchString)` (position 0). -/
def startsWith : (searchString s : JSString) → Bool
  | [], _ => true
  | _ :: _, [] => false
  | p :: ps, c :: cs => p == c && startsWith ps cs

/-- `String.prototype.split(separator)` for a separator of one code unit, as in
`stdout.split("\n")`.  The empty string splits into one empty piece. -/
def split (separator : Nat) : JSString → List JSString
  | [] => [[]]
  | c :: cs =>
    if c = separator then [] :: split separator cs
    else
      match split separator cs with
      | [] => [[c]]
      | piece :: pieces => (c :: piece) :: pieces

/-- `Array.prototype.join(separator)` on an array of strings. -/
def join (separator : JSString) : List JSString → JSString
  | [] => []
  | [piece] => piece
  | piece :: rest => piece ++ separator ++ join separator rest

/-- ECMAScript `WhiteSpace` and `LineTerminator` code points, the ones that
`String.prototype.trim` strips. -/
def isWhiteSpace (c : Nat) : Bool :=
  c == 0x09 || c == 0x0A || c == 0x0B || c == 0x0C || c == 0x0D || c == 0x20 ||
  c == 0xA0 || c == 0x1680 || (0x2000 ≤ c && c ≤ 0x200A) || c == 0x2028 ||
  c == 0x2029 || c == 0x202F || c == 0x205F || c == 0x3000 || c == 0xFEFF

/-- `String.prototype.trimStart`. -/
def trimStart : JSString → JSString
  | [] => []
  | c :: cs => if isWhiteSpace c then trimStart cs else c :: cs

/-- `String.prototype.trimEnd`. -/
def trimEnd (s : JSString) : JSString :=
  (trimStart s.reverse).reverse

/-- `String.prototype.trim`. -/
def trim (s : JSString) : JSString :=
  trimEnd (trimStart s)

/-- `String.prototype.replace(searchValue, replaceValue)` for a string
`searchValue` and a `replaceValue` without `$` patterns (the script passes the
empty string): only the first occurrence is replaced. -/
def replace (searchValue replaceValue : JSString) : JSString → JSString
  | [] => if searchValue = [] then replaceValue else []
  | c :: cs =>
    if startsWith searchValue (c :: cs) then
      replaceValue ++ (c :: cs).drop searchValue.length
    else c :: replace searchValue replaceValue cs

/-- `String.prototype.slice(start, end)` with integer arguments; a negative
argument counts from the end of the string. -/
def slice {α : Type} (s : List α) (start stop : Int) : List α :=
  let len : Int := s.length
  let lo : Int := if start < 0 then max (len + start) 0 else min start len
  let hi : Int := if stop < 0 then max (len + stop) 0 else min stop len
  (s.drop lo.toNat).take (max (hi - lo) 0).toNat

/-! ### `JSON.stringify` on a string (ECMAScript `QuoteJSONString`) -/

/-- One lower-case hexadecimal digit. -/
def hexDigit (n : Nat) : Nat :=
  if n < 10 then 48 + n else 87 + n

/-- ECMAScript `UnicodeEscape`: a backslash, `u` and four hexadecimal digits. -/
def unicodeEscape (c : Nat) : JSString :=
  [92, 117, hexDigit (c / 4096 % 16), hexDigit (c / 256 % 16),
    hexDigit (c / 16 % 16), hexDigit (c % 16)]

/-- A leading (high) surrogate code unit. -/
def isLeadingSurrogate (c : Nat) : Bool := 0xD800 ≤ c && c ≤ 0xDBFF

/-- A trailing (low) surrogate code unit. -/
def isTrailingSurrogate (c : Nat) : Bool := 0xDC00 ≤ c && c ≤ 0xDFFF

/-- The JSON escape of one code unit that is not part of a surrogate pair. -/
def quoteUnit (c : Nat) : JSString :=
  if c = 8 then [92, 98]
  else if c = 9 then [92, 116]
  else if c = 10 then [92, 110]
  else if c = 12 then [92, 102]
  else if c = 13 then [92, 114]
  else if c = 34 then [92, 34]
  else if c = 92 then [92, 92]
  else if c < 32 || isLeadingSurrogate c || isTrailingSurrogate c then unicodeEscape c
  else [c]

/-- The body of `QuoteJSONString`: the string is read code point by code point,
so a well-formed surrogate pair is copied and a lone surrogate is escaped. -/
def quoteBody : JSString → JSString
  | [] => []
  | [c] => quoteUnit c
  | c :: d :: ds =>
    if isLeadingSurrogate c && isTrailingSurrogate d then c :: d :: quoteBody ds
    else quoteUnit c ++ quoteBody (d :: ds)

/-- `JSON.stringify(value)` for a string `value`. -/
def JSON.stringify (value : JSString) : JSString :=
  [34] ++ quoteBody value ++ [34]

/-! ### The regular expression of the branch validator

A small backtracking matcher for the fragment of ECMAScript patterns that the
script uses, without flags: `^` and `$` assert the two ends of the input and a
character class under `+` is matched greedily. -/

/-- One term of a pattern. -/
inductive Term where
  /-- The assertion `^`. -/
  | assertStart
  /-- The assertion `$`. -/
  | assertEnd
  /-- A character class of inclusive ranges under the greedy quantifier `+`. -/
  | classPlus (ranges : List (Nat × Nat))
  deriving DecidableEq, Repr

/-- Membership of a code unit in a character class. -/
def inClass (ranges : List (Nat × Nat)) (c : Nat) : Bool :=
  ranges.any fun r => r.1 ≤ c && c ≤ r.2

/-- Greedy `+`: after one unit of the class, first try to take more, then hand
the rest to the continuation. -/
def matchPlus (ranges : List (Nat × Nat)) (k : JSString → Bool) : JSString → Bool
  | [] => false
  | c :: cs => inClass ranges c && (matchPlus ranges k cs || k cs)

/-- Match the terms at the current position; `atStart` tells whether the
position is index 0 of the input and `rest` is the input from the position on. -/
def matchTerms : List Term → Bool → JSString → Bool
  | [], _, _ => true
  | .assertStart :: ts, atStart, rest => atStart && matchTerms ts atStart rest
  | .assertEnd :: ts, atStart, rest => rest.isEmpty && matchTerms ts atStart rest
  | .classPlus ranges :: ts, _, rest => matchPlus ranges (matchTerms ts false) rest

/-- Try the pattern at the current position and then at every later one. -/
def searchFrom (pattern : List Term) : Bool → JSString → Bool
  | atStart, [] => matchTerms pattern atStart []
  | atStart, c :: cs => matchTerms pattern atStart (c :: cs) || searchFrom pattern false cs

/-- `RegExp.prototype.test` for a pattern without the `g` and `y` flags: the
search starts at index 0. -/
def RegExp.test (pattern : List Term) (input : JSString) : Bool :=
  searchFrom pattern true input

/-- The pattern `/^[a-z-]+$/` (line 95): the class holds the range `a`-`z` and
a literal hyphen. -/
def branchPattern : List Term :=
  [.assertStart, .classPlus [('a'.toNat, 'z'.toNat), ('-'.toNat, '-'.toNat)], .assertEnd]

/-! ## Validators -/

/-- What a validator returns: `true`/`false` or a message. -/
inductive Value where
  | bool (b : Bool)
  | str (s : JSString)
  deriving DecidableEq, Repr

/-- Line 39: `(message = false) => (value) => value.length > 0 || message`.
`value` is a string or an array; the default of `message` is `Value.bool false`. -/
def isRequired {α : Type} (message : Value) (value : List α) : Value :=
  if value.length > 0 then .bool true else message

/-- Lines 94-98: the `validate` function of the branch-name question. -/
def branchValidate (value : JSString) : Value :=
  if !RegExp.test branchPattern value then
    .str (js "You need to specify small characters.")
  else isRequired (.str (js "You need to specify a branch name.")) value

/-! ## Data model -/

/-- One entry of the parsed `git status --porcelain -z` output, as produced by
`parse-git-status`: the two status codes and the path.  The library calls the
path `to`, which is a reserved word here; `path` is the name of the data model. -/
structure StatusEntry where
  x : JSString
  y : JSString
  path : JSString
  deriving DecidableEq, Repr

/-- The resolved value of `cpExec(command)`. -/
structure ExecResult where
  stdout : JSString
  stderr : JSString
  deriving DecidableEq, Repr

/-- A thrown value: its `message` property (empty when missing) and its
conversion to a string. -/
structure Thrown where
  message : JSString
  text : JSString
  deriving DecidableEq, Repr

/-- The value of `new Error(message)`. -/
def Thrown.ofMessage (message : JSString) : Thrown :=
  ⟨message, if message = [] then js "Error" else js "Error: " ++ message⟩

/-- The answers of the second batch of questions.  `files` and `message` are
only asked, and only read, when the method is `SELECT_FILES`. -/
structure Answers where
  files : List JSString
  type : JSString
  branch : JSString
  message : JSString
  deriving DecidableEq, Repr

/-- Line 46. -/
def LAST_COMMIT : JSString := js "Last commit"

/-- Line 47. -/
def SELECT_FILES : JSString := js "Select files"

/-- A question handed to `inquirer.prompt`. -/
inductive Question where
  | list (name message : JSString) (choices : List JSString)
  | searchCheckbox (name message : JSString) (choices : List (JSString × JSString))
      (validate : List JSString → Value)
  | input (name message : JSString) (validate : JSString → Value)

/-- The `name` of a question. -/
def Question.name : Question → JSString
  | .list n _ _ => n
  | .searchCheckbox n _ _ _ => n
  | .input n _ _ => n

/-- The read-only queries made before the first prompt. -/
inductive Query where
  /-- `cpExec("git status --porcelain -z")` in `getStatus`. -/
  | status
  /-- `getRemoteOriginUrl()`. -/
  | remoteOriginUrl
  /-- `cpExec("git remote show origin")` in `getDefaultBranch`. -/
  | remoteShow
  /-- `getBranch()`. -/
  | branch
  deriving DecidableEq, Repr

/-- What a run does that can be observed from outside. -/
inductive Event where
  | query (q : Query)
  /-- `inquirer.prompt` is called with questions of these names. -/
  | prompt (names : List JSString)
  /-- `console.log`. -/
  | log (text : JSString)
  /-- `console.error`. -/
  | logError (text : JSString)
  /-- `cpExec(command)` inside `exec`: a command of the workflow is issued. -/
  | spawn (command : JSString)
  /-- `open(url)`. -/
  | openBrowser (url : JSString)
  deriving DecidableEq, Repr

/-- The environment of one run: what each external call answers.  `cpExec n c`
is the outcome of the workflow command `c` issued after `n` earlier ones. -/
structure World where
  getStatus : Except Thrown (List StatusEntry)
  getRemoteOriginUrl : Except Thrown JSString
  remoteShow : Except Thrown ExecResult
  getBranch : Except Thrown JSString
  promptMethod : Except Thrown JSString
  promptAnswers : Except Thrown Answers
  cpExec : Nat → JSString → Except Thrown ExecResult
  openUrl : JSString → Except Thrown Unit

/-- The outcome of a run. -/
structure Run where
  events : List Event
  exitCode : Nat
  deriving DecidableEq, Repr

/-- The workflow commands issued in a sequence of events, in order. -/
def issued : List Event → List JSString
  | [] => []
  | .spawn c :: es => c :: issued es
  | _ :: es => issued es

/-- The URLs handed to the browser opener in a sequence of events. -/
def opened : List Event → List JSString
  | [] => []
  | .openBrowser u :: es => u :: opened es
  | _ :: es => opened es

/-- The prompts shown in a sequence of events. -/
def prompts : List Event → List (List JSString)
  | [] => []
  | .prompt ns :: es => ns :: prompts es
  | _ :: es => prompts es

/-! ## The control flow of an `async` function

A computation reads the events that happened before it and returns the events
it adds, together with its value or the value it threw.  `await` of a rejected
promise throws. -/

/-- An `async` computation. -/
def Flow (α : Type) : Type := List Event → List Event × Except Thrown α

/-- Sequencing: a thrown value skips the rest. -/
def Flow.bind {α β : Type} (m : Flow α) (f : α → Flow β) : Flow β := fun h =>
  match m h with
  | (es, .ok a) => (es ++ (f a (h ++ es)).1, (f a (h ++ es)).2)
  | (es, .error e) => (es, .error e)

instance : Monad Flow where
  pure a := fun _ => ([], .ok a)
  bind := Flow.bind

/-- Record an event. -/
def emit (e : Event) : Flow Unit := fun _ => ([e], .ok ())

/-- Wait for the outcome of an external call. -/
def await {α : Type} (r : Except Thrown α) : Flow α := fun _ => ([], r)

/-- The statement `throw error`. -/
def raise {α : Type} (e : Thrown) : Flow α := fun _ => ([], .error e)

/-! ## The script -/

/-- Lines 16-19; parsing the output is the job of `parse-git-status`. -/
def getStatus (w : World) : Flow (List StatusEntry) := do
  emit (.query .status)
  await w.getStatus

/-- Lines 23-27: the default branch in the output of `git remote show origin`. -/
def headBranch (stdout : JSString) : JSString :=
  let row := ((split 10 stdout).map trim).find? (startsWith (js "HEAD branch:"))
  replace (js "HEAD branch: ") [] (row.getD [])

/-- Lines 21-28. -/
def getDefaultBranch (w : World) : Flow JSString := do
  emit (.query .remoteShow)
  let result ← await w.remoteShow
  return headBranch result.stdout

/-- Lines 30-37. -/
def exec (w : World) (command : JSString) : Flow ExecResult := do
  emit (.log (js "$ " ++ command))
  let result ← fun h => ([.spawn command], w.cpExec (issued h).length command)
  if result.stdout ≠ [] then emit (.log result.stdout)
  if result.stderr ≠ [] then emit (.logError result.stderr)
  emit (.log [])
  return result

/-- Lines 53-54: the preflight check. -/
def preflight (files : List StatusEntry) : Flow Unit :=
  if files.any (fun e => !([js " ", js "?"].contains e.x)) then
    raise (Thrown.ofMessage (js "You are not allowed to have added files"))
  else pure ()

/-- Line 60. -/
def extractPath (origin : JSString) : JSString :=
  slice origin 15 (-4)

/-- Lines 62-69: the question of the first prompt. -/
def methodQuestions : List Question :=
  [.list (js "method") (js "Method:") [LAST_COMMIT, SELECT_FILES]]

/-- Lines 72-106: the questions of the second prompt.  An entry
`method === SELECT_FILES && q` is `false` for another method and is dropped by
`.filter(Boolean)`.  The name of a file choice is its second status code and
its path; `mapper` (lines 41-44) only picks the colour of the code.  The
`transformer` of the branch question only changes what is displayed. -/
def answerQuestions (method : JSString) (files : List StatusEntry) : List Question :=
  [ if method = SELECT_FILES then
      some (.searchCheckbox (js "files") (js "Files to commit:")
        (files.map fun e => (e.y ++ js " " ++ e.path, e.path))
        (isRequired (.str (js "You need to select at least one file."))))
    else none,
    some (.list (js "type") (js "Type:") [js "feature", js "fixes"]),
    some (.input (js "branch") (js "Branch name:") branchValidate),
    if method = SELECT_FILES then
      some (.input (js "message") (js "Commit message:")
        (isRequired (.str (js "You need to specify a commit message."))))
    else none ].filterMap id

/-- A call of `inquirer.prompt`. -/
def prompt {α : Type} (questions : List Question) (answer : Except Thrown α) : Flow α := do
  emit (.prompt (questions.map Question.name))
  await answer

/-- Line 117. -/
def combinedBranch (answers : Answers) : JSString :=
  JSON.stringify (answers.type ++ js "/" ++ answers.branch)

/-- Line 127: the URL handed to `open`. -/
def compareUrl (path : JSString) (answers : Answers) : JSString :=
  js "https://github.com/" ++ path ++ js "/compare/" ++ combinedBranch answers ++ js "?expand=1"

/-- The call `open(url)` (line 127). -/
def openBrowser (w : World) (url : JSString) : Flow Unit :=
  fun _ => ([.openBrowser url], w.openUrl url)

/-- Lines 111-127: the workflow. -/
def workflow (w : World) (method : JSString) (answers : Answers)
    (defaultBranch branch path : JSString) : Flow Unit := do
  if method = SELECT_FILES then
    let _ ← exec w (js "git add " ++ join (js " ") (answers.files.map JSON.stringify))
    let _ ← exec w (js "git commit -m " ++ JSON.stringify answers.message)
  let result ← exec w (js "git rev-parse HEAD")
  let commit := result.stdout
  let _ ← exec w (js "git reset --hard HEAD~1")
  let _ ← exec w (js "git fetch")
  let _ ← exec w (js "git checkout " ++ defaultBranch)
  let _ ← exec w (js "git pull")
  let _ ← exec w (js "git checkout -b " ++ combinedBranch answers)
  let _ ← exec w (js "git cherry-pick " ++ commit)
  let _ ← exec w (js "git push --set-upstream origin " ++ combinedBranch answers)
  let _ ← exec w (js "git checkout " ++ branch)
  openBrowser w (compareUrl path answers)

/-- Lines 51-127: the body of the `try` block. -/
def script (w : World) : Flow Unit := do
  let files ← getStatus w
  preflight files
  emit (.query .remoteOriginUrl)
  let origin ← await w.getRemoteOriginUrl
  let defaultBranch ← getDefaultBranch w
  emit (.query .branch)
  let branch ← await w.getBranch
  let path := extractPath origin
  let method ← prompt methodQuestions w.promptMethod
  let answers ← prompt (answerQuestions method files) w.promptAnswers
  emit (.log [])
  workflow w method answers defaultBranch branch path

/-- Line 129: the text `error.message || error` that the handler prints. -/
def printed (e : Thrown) : JSString :=
  if e.message ≠ [] then e.message else e.text

/-- Lines 49-132: the whole run.  The `catch` block prints
`error.message || error` and exits with status 1; a run that throws nothing
ends with status 0. -/
def main (w : World) : Run :=
  match script w [] with
  | (es, .ok _) => ⟨es, 0⟩
  | (es, .error e) => ⟨es ++ [.logError (printed e)], 1⟩

/-! ## The planned command sequence -/

/-- The commands of the workflow, in order, for a given captured commit. -/
def workflowCommands (method : JSString) (answers : Answers)
    (defaultBranch branch commit : JSString) : List JSString :=
  (if method = SELECT_FILES then
      [js "git add " ++ join (js " ") (answers.files.map JSON.stringify),
       js "git commit -m " ++ JSON.stringify answers.message]
    else []) ++
  [js "git rev-parse HEAD", js "git reset --hard HEAD~1", js "git fetch",
   js "git checkout " ++ defaultBranch, js "git pull",
   js "git checkout -b " ++ combinedBranch answers, js "git cherry-pick " ++ commit,
   js "git push --set-upstream origin " ++ combinedBranch answers,
   js "git checkout " ++ branch]

/-- The output of `git rev-parse HEAD` in a run: the commit that the later
`git cherry-pick` names.  The command is the third of the "Select files" method
and the first otherwise; when it fails nothing is captured. -/
def capturedCommit (w : World) (method : JSString) : JSString :=
  match w.cpExec (if method = SELECT_FILES then 2 else 0) (js "git rev-parse HEAD") with
  | .ok r => r.stdout
  | .error _ => []

/-- The command sequence of a run that reaches the workflow. -/
def commandSequence (w : World) (method : JSString) (answers : Answers) (remote : ExecResult)
    (branch : JSString) : List JSString :=
  workflowCommands method answers (headBranch remote.stdout) branch (capturedCommit w method)

/-- The events of a run before the workflow starts. -/
def preamble (method : JSString) (files : List StatusEntry) : List Event :=
  [.query .status, .query .remoteOriginUrl, .query .remoteShow, .query .branch,
   .prompt (methodQuestions.map Question.name),
   .prompt ((answerQuestions method files).map Question.name), .log []]

/-- The run reaches the workflow: the status is read and passes the preflight
check, the three queries succeed and both prompts are answered. -/
structure ReachesWorkflow (w : World) (files : List StatusEntry) (origin : JSString)
    (remote : ExecResult) (branch method : JSString) (answers : Answers) : Prop where
  status : w.getStatus = .ok files
  clean : ∀ e ∈ files, e.x = js " " ∨ e.x = js "?"
  origin : w.getRemoteOriginUrl = .ok origin
  remote : w.remoteShow = .ok remote
  branch : w.getBranch = .ok branch
  method : w.promptMethod = .ok method
  answers : w.promptAnswers = .ok answers

/-! ## Auxiliary definitions for the proofs -/

/-- What `exec` echoes after a command that succeeded (lines 33-35). -/
def echo (r : ExecResult) : List Event :=
  (if r.stdout ≠ [] then [.log r.stdout] else []) ++
  (if r.stderr ≠ [] then [.logError r.stderr] else []) ++ [.log []]

/-- Running commands one after the other, as consecutive `await exec(...)`
statements do. -/
def execAll (w : World) : List JSString → Flow Unit
  | [] => pure ()
  | c :: cs => exec w c >>= fun _ => execAll w cs

/-- The first command of a list that fails when the list is run from index `n`:
its position in the list and the error. -/
def firstFailure (w : World) : Nat → List JSString → Option (Nat × Thrown)
  | _, [] => none
  | n, c :: cs =>
    match w.cpExec n c with
    | .error e => some (0, e)
    | .ok _ => (firstFailure w (n + 1) cs).map fun p => (p.1 + 1, p.2)

/-- The commands issued when a list is run: all of them, or the ones up to and
including the first that fails. -/
def issuedOf (w : World) (n : Nat) (cs : List JSString) : List JSString :=
  match firstFailure w n cs with
  | some (i, _) => cs.take (i + 1)
  | none => cs

/-- The result of running a list of commands. -/
def resultOf (w : World) (n : Nat) (cs : List JSString) : Except Thrown Unit :=
  match firstFailure w n cs with
  | some (_, e) => .error e
  | none => .ok ()

/-! ## Concrete worlds -/

/-- A world whose fourth workflow command (`git reset --hard HEAD~1` under the
"Select files" method) fails. -/
def failingWorld : World where
  getStatus := .ok [⟨js "?", js "?", js "a.txt"⟩]
  getRemoteOriginUrl := .ok (js "git@github.com:org/repo.git")
  remoteShow := .ok ⟨js "* remote origin\n  HEAD branch: main\n", []⟩
  getBranch := .ok (js "work")
  promptMethod := .ok SELECT_FILES
  promptAnswers := .ok ⟨[js "a.txt"], js "feature", js "thing", js "msg"⟩
  cpExec := fun n _ => if n = 3 then .error (Thrown.ofMessage (js "boom")) else .ok ⟨[], []⟩
  openUrl := fun _ => .ok ()

/-- A world in which every external call succeeds. -/
def demoWorld (method : JSString) (files : List StatusEntry) : World where
  getStatus := .ok files
  getRemoteOriginUrl := .ok (js "git@github.com:org/repo.git")
  remoteShow := .ok ⟨js "* remote origin\n  HEAD branch: main\n  Remote branch:\n", []⟩
  getBranch := .ok (js "work")
  promptMethod := .ok method
  promptAnswers := .ok ⟨[js "a.txt"], js "fixes", js "my-fix", js "msg"⟩
  cpExec := fun _ c => .ok ⟨if c = js "git rev-parse HEAD" then js "abc123\n" else [], []⟩
  openUrl := fun _ => .ok ()

/-! ## Lemmas on the regular expression -/

/-- The class `[a-z-]`. -/
theorem inClass_branch (c : Nat) :
    inClass [('a'.toNat, 'z'.toNat), ('-'.toNat, '-'.toNat)] c = true ↔
      ('a'.toNat ≤ c ∧ c ≤ 'z'.toNat) ∨ c = '-'.toNat := by
  simp only [inClass, List.any_cons, List.any_nil, Bool.or_false, Bool.or_eq_true,
    Bool.and_eq_true, decide_eq_true_eq]
  constructor
  · rintro (h | h)
    · exact Or.inl h
    · exact Or.inr (Nat.le_antisymm h.2 h.1)
  · rintro (h | h)
    · exact Or.inl h
    · exact Or.inr ⟨h ▸ Nat.le_refl _, h ▸ Nat.le_refl _⟩

/-- A greedy `+` followed by `$` matches exactly the non-empty inputs made of
units of the class. -/
theorem matchPlus_assertEnd (ranges : List (Nat × Nat)) (atStart : Bool) (s : JSString) :
    matchPlus ranges (matchTerms [.assertEnd] atStart) s = true ↔
      s ≠ [] ∧ ∀ c ∈ s, inClass ranges c = true := by
  induction s with
  | nil => simp [matchPlus]
  | cons c cs ih =>
    cases cs with
    | nil => simp [matchPlus, matchTerms]
    | cons d ds =>
      simp only [matchPlus, Bool.and_eq_true, Bool.or_eq_true] at ih ⊢
      simp only [matchTerms, List.isEmpty_cons, Bool.false_and, Bool.false_eq_true, or_false,
        ne_eq, not_false_eq_true, List.mem_cons, forall_eq_or_imp, true_and, reduceCtorEq] at ih ⊢
      constructor
      · rintro ⟨hc, h⟩
        exact ⟨hc, ih.mp h⟩
      · rintro ⟨hc, h⟩
        exact ⟨hc, ih.mpr h⟩

/-- A pattern that starts with `^` matches at no later position. -/
theorem searchFrom_assertStart (ts : List Term) (s : JSString) :
    searchFrom (.assertStart :: ts) false s = false := by
  induction s with
  | nil => simp [searchFrom, matchTerms]
  | cons c cs ih => simp [searchFrom, matchTerms, ih]

/-- What `/^[a-z-]+$/.test` decides. -/
theorem test_branchPattern (v : JSString) :
    RegExp.test branchPattern v = true ↔
      v ≠ [] ∧ ∀ c ∈ v, ('a'.toNat ≤ c ∧ c ≤ 'z'.toNat) ∨ c = '-'.toNat := by
  have key : RegExp.test branchPattern v =
      matchPlus [('a'.toNat, 'z'.toNat), ('-'.toNat, '-'.toNat)]
        (matchTerms [.assertEnd] false) v := by
    cases v with
    | nil => simp [RegExp.test, branchPattern, searchFrom, matchTerms, matchPlus]
    | cons c cs =>
      simp [RegExp.test, branchPattern, searchFrom, matchTerms, searchFrom_assertStart]
  rw [key, matchPlus_assertEnd]
  simp only [inClass_branch]

/-! ## The validators -/

/-- C4: the branch-name validator returns `true` exactly for the non-empty
strings whose every code unit is a lower-case letter `a`-`z` or a hyphen;
`Feature1` and `feature-1` are rejected and `feature` is accepted. -/
theorem branchValidate_accepts_iff (v : JSString) :
    (branchValidate v = .bool true ↔
      v ≠ [] ∧ ∀ c ∈ v, ('a'.toNat ≤ c ∧ c ≤ 'z'.toNat) ∨ c = '-'.toNat) ∧
    branchValidate (js "Feature1") ≠ .bool true ∧
    branchValidate (js "feature-1") ≠ .bool true ∧
    branchValidate (js "feature") = .bool true := by
  refine ⟨?_, by decide, by decide, by decide⟩
  rw [← test_branchPattern]
  unfold branchValidate
  cases h : RegExp.test branchPattern v
  · simp
  · have hv : v ≠ [] := ((test_branchPattern v).mp h).1
    have hlen : 0 < v.length := List.length_pos.mpr hv
    simp [isRequired, hlen]

/-- C9: `isRequired(m)(v)` is `m` for an empty string or array `v` and `true`
for a non-empty one; the files question of the "Select files" method answers
an empty selection with "You need to select at least one file." and its
commit-message question answers an empty message with "You need to specify a
commit message.". -/
theorem isRequired_spec {α : Type} (m : Value) (files : List StatusEntry) :
    isRequired m ([] : List α) = m ∧
    (∀ (a : α) (as : List α), isRequired m (a :: as) = .bool true) ∧
    (∃ choices validate,
      (answerQuestions SELECT_FILES files).head? =
        some (.searchCheckbox (js "files") (js "Files to commit:") choices validate) ∧
      validate [] = .str (js "You need to select at least one file.") ∧
      ∀ f fs, validate (f :: fs) = .bool true) ∧
    (∃ validate,
      (answerQuestions SELECT_FILES files).getLast? =
        some (.input (js "message") (js "Commit message:") validate) ∧
      validate [] = .str (js "You need to specify a commit message.") ∧
      ∀ c cs, validate (c :: cs) = .bool true) := by
  refine ⟨by simp [isRequired], fun a as => by simp [isRequired], ?_, ?_⟩
  · exact ⟨files.map fun e => (e.y ++ js " " ++ e.path, e.path),
      isRequired (.str (js "You need to select at least one file.")),
      by simp [answerQuestions], by simp [isRequired], fun f fs => by simp [isRequired]⟩
  · exact ⟨isRequired (.str (js "You need to specify a commit message.")),
      by simp [answerQuestions], by simp [isRequired], fun c cs => by simp [isRequired]⟩

/-- C10: the branch-name validator returns `true` or "You need to specify small
characters." and never "You need to specify a branch name."; the empty string
gets the "small characters" message, and whenever the validator reaches its
`isRequired` call that call returns `true`. -/
theorem branchValidate_never_required (v : JSString) :
    (branchValidate v = .bool true ∨
      branchValidate v = .str (js "You need to specify small characters.")) ∧
    branchValidate v ≠ .str (js "You need to specify a branch name.") ∧
    branchValidate [] = .str (js "You need to specify small characters.") ∧
    (RegExp.test branchPattern v = true →
      isRequired (.str (js "You need to specify a branch name.")) v = .bool true) := by
  have hreq : RegExp.test branchPattern v = true →
      isRequired (.str (js "You need to specify a branch name.")) v = .bool true := by
    intro h
    have hv : v ≠ [] := ((test_branchPattern v).mp h).1
    have hlen : 0 < v.length := List.length_pos.mpr hv
    simp [isRequired, hlen]
  have hne : js "You need to specify small characters." ≠
      js "You need to specify a branch name." := by decide
  refine ⟨?_, ?_, by decide, hreq⟩
  · unfold branchValidate
    cases h : RegExp.test branchPattern v
    · simp
    · simp [hreq h]
  · unfold branchValidate
    cases h : RegExp.test branchPattern v
    · simpa using hne
    · simp [hreq h]

/-! ## The path taken from the origin URL -/

/-- Cutting a known number of units from both ends leaves the middle. -/
theorem slice_middle {α : Type} (p m t : List α) (a b : Nat) (hp : p.length = a)
    (ht : t.length = b) (hb : 0 < b) :
    slice (p ++ m ++ t) (a : Int) (-(b : Int)) = m := by
  subst hp ht
  have h1 : ¬ ((p.length : Int) < 0) := by omega
  have h2 : (-(t.length : Int)) < 0 := by omega
  simp only [slice, h1, h2, if_true, if_false, List.length_append, Nat.cast_add]
  have lo : min (p.length : Int) (↑p.length + ↑m.length + ↑t.length) = p.length := by omega
  have hi : max ((p.length : Int) + ↑m.length + ↑t.length + -↑t.length) 0 =
      ((p.length + m.length : Nat) : Int) := by
    push_cast
    omega
  rw [lo, hi]
  have hd : max (((p.length + m.length : Nat) : Int) - (p.length : Int)) 0 = (m.length : Int) := by
    push_cast
    omega
  rw [hd]
  simp [List.append_assoc]

/-- C2 (as stated, refuted): the path taken from
`https://github.com/org/repo.git` is not `org/repo`; it is `com/org/repo`. -/
theorem extractPath_https_counterexample :
    extractPath (js "https://github.com/org/repo.git") ≠ js "org/repo" ∧
    extractPath (js "https://github.com/org/repo.git") = js "com/org/repo" := by
  decide

/-- C2 (amended): for every `org` and `repo` the path taken from
`https://github.com/<org>/<repo>.git` is `com/<org>/<repo>`; the offsets 15 and
-4 fit the SSH form, and the path taken from `git@github.com:<org>/<repo>.git`
is `<org>/<repo>`. -/
theorem extractPath_spec (org repo : JSString) :
    extractPath (js "https://github.com/" ++ org ++ js "/" ++ repo ++ js ".git") =
      js "com/" ++ org ++ js "/" ++ repo ∧
    extractPath (js "git@github.com:" ++ org ++ js "/" ++ repo ++ js ".git") =
      org ++ js "/" ++ repo := by
  constructor
  · have hsplit : js "https://github.com/" = js "https://github." ++ js "com/" := by decide
    have h := slice_middle (js "https://github.") (js "com/" ++ org ++ js "/" ++ repo)
      (js ".git") 15 4 (by decide) (by decide) (by decide)
    simp only [extractPath, hsplit, List.append_assoc] at h ⊢
    exact_mod_cast h
  · have h := slice_middle (js "git@github.com:") (org ++ js "/" ++ repo)
      (js ".git") 15 4 (by decide) (by decide) (by decide)
    simp only [extractPath, List.append_assoc] at h ⊢
    exact_mod_cast h

/-! ## The default branch -/

/-- A string starts with each of its own beginnings. -/
theorem startsWith_append (p s : JSString) : startsWith p (p ++ s) = true := by
  induction p with
  | nil => simp [startsWith]
  | cons c cs ih => simp [startsWith, ih]

/-- Replacing a beginning of the string. -/
theorem replace_of_startsWith (p r s : JSString) (h : startsWith p s = true) :
    replace p r s = r ++ s.drop p.length := by
  cases s with
  | nil =>
    cases p with
    | nil => simp [replace]
    | cons c cs => simp [startsWith] at h
  | cons c cs => simp [replace, h]

/-- A piece without the separator is split into itself. -/
theorem split_of_not_mem (sep : Nat) (x : JSString) (hx : sep ∉ x) : split sep x = [x] := by
  induction x with
  | nil => simp [split]
  | cons c cs ih =>
    have hc : c ≠ sep := fun h => hx (by simp [h])
    have hcs : sep ∉ cs := fun h => hx (by simp [h])
    simp [split, hc, ih hcs]

/-- Splitting after the first separator. -/
theorem split_append_sep (sep : Nat) (x rest : JSString) (hx : sep ∉ x) :
    split sep (x ++ sep :: rest) = x :: split sep rest := by
  induction x with
  | nil => simp [split]
  | cons c cs ih =>
    have hc : c ≠ sep := fun h => hx (by simp [h])
    have hcs : sep ∉ cs := fun h => hx (by simp [h])
    simp [split, hc, ih hcs]

/-- Splitting inverts joining: the lines of a text are recovered. -/
theorem split_join (sep : Nat) (lines : List JSString) (hne : lines ≠ [])
    (h : ∀ x ∈ lines, sep ∉ x) : split sep (join [sep] lines) = lines := by
  induction lines with
  | nil => exact absurd rfl hne
  | cons l ls ih =>
    cases ls with
    | nil => simpa [join] using split_of_not_mem sep l (h l (by simp))
    | cons l2 ls2 =>
      have hl : sep ∉ l := h l (by simp)
      have htail : ∀ x ∈ l2 :: ls2, sep ∉ x := fun x hx => h x (by simp [hx])
      have := ih (by simp) htail
      simp only [join, List.append_assoc, List.singleton_append] at this ⊢
      rw [split_append_sep sep l _ hl, this]

/-- The first line that passes a test, when all lines before it fail. -/
theorem find_first (f : JSString → Bool) (g : JSString → JSString)
    (pre : List JSString) (l : JSString) (post : List JSString)
    (hpre : ∀ x ∈ pre, f (g x) = false) (hl : f (g l) = true) :
    ((pre ++ l :: post).map g).find? f = some (g l) := by
  induction pre with
  | nil => simp [List.find?, hl]
  | cons x xs ih =>
    have hx : f (g x) = false := hpre x (by simp)
    have := ih fun y hy => hpre y (by simp [hy])
    simpa [List.find?, hx] using this

/-- No line passes the test. -/
theorem find_none (f : JSString → Bool) (g : JSString → JSString) (lines : List JSString)
    (h : ∀ x ∈ lines, f (g x) = false) : (lines.map g).find? f = none := by
  induction lines with
  | nil => rfl
  | cons x xs ih =>
    have hx : f (g x) = false := h x (by simp)
    have := ih fun y hy => h y (by simp [hy])
    simpa [List.find?, hx] using this

/-- C5: let the output of the remote query consist of the lines `lines` (joined
by newlines).  If the first line whose trimmed form starts with `HEAD branch:`
trims to `HEAD branch: <name>`, the result is `<name>`; if no trimmed line
starts with `HEAD branch:`, the result is the empty string; an output with the
line `  HEAD branch: main` resolves to `main`. -/
theorem headBranch_spec (lines : List JSString) (hnl : ∀ x ∈ lines, (10 : Nat) ∉ x) :
    (∀ pre l post name, lines = pre ++ l :: post →
      (∀ x ∈ pre, startsWith (js "HEAD branch:") (trim x) = false) →
      trim l = js "HEAD branch: " ++ name →
      headBranch (join [10] lines) = name) ∧
    ((∀ x ∈ lines, startsWith (js "HEAD branch:") (trim x) = false) →
      headBranch (join [10] lines) = []) ∧
    headBranch (js "* remote origin\n  Fetch URL: git@github.com:org/repo.git\n  HEAD branch: main\n  Remote branch:\n    main tracked\n") = js "main" := by
  refine ⟨?_, ?_, by decide⟩
  · intro pre l post name hlines hpre hl
    have hne : lines ≠ [] := by simp [hlines]
    have hstart : startsWith (js "HEAD branch:") (trim l) = true := by
      have hsplit : js "HEAD branch: " = js "HEAD branch:" ++ js " " := by decide
      rw [hl, hsplit, List.append_assoc]
      exact startsWith_append _ _
    have hfind := find_first (startsWith (js "HEAD branch:")) trim pre l post hpre hstart
    have hrep : replace (js "HEAD branch: ") [] (js "HEAD branch: " ++ name) = name := by
      rw [replace_of_startsWith _ _ _ (startsWith_append _ _)]
      simp
    simp only [headBranch, split_join 10 lines hne hnl]
    rw [hlines, hfind]
    simpa [hl] using hrep
  · intro hall
    cases lines with
    | nil => decide
    | cons l ls =>
      have hfind := find_none (startsWith (js "HEAD branch:")) trim (l :: ls) hall
      simp only [headBranch, split_join 10 (l :: ls) (by simp) hnl]
      rw [hfind]
      decide

/-- C5, at a concrete output of three lines. -/
theorem headBranch_spec_witness :
    (∀ x ∈ [js "* remote origin", js "  HEAD branch: main", js "  Remote branch:"],
      (10 : Nat) ∉ x) ∧
    headBranch (join [10] [js "* remote origin", js "  HEAD branch: main",
      js "  Remote branch:"]) = js "main" :=
  ⟨by decide,
   (headBranch_spec [js "* remote origin", js "  HEAD branch: main", js "  Remote branch:"]
      (by decide)).1 [js "* remote origin"] (js "  HEAD branch: main") [js "  Remote branch:"]
      (js "main") (by decide) (by decide) (by decide)⟩

/-! ## Reasoning about the control flow -/

/-- What sequencing computes. -/
theorem bind_apply {α β : Type} (m : Flow α) (f : α → Flow β) (h : List Event) :
    (m >>= f) h =
      match m h with
      | (es, .ok a) => (es ++ (f a (h ++ es)).1, (f a (h ++ es)).2)
      | (es, .error e) => (es, .error e) := rfl

/-- What `pure` computes. -/
theorem pure_apply {α : Type} (a : α) (h : List Event) :
    (pure a : Flow α) h = ([], .ok a) := rfl

/-- Left identity of sequencing. -/
theorem pure_bind_flow {α β : Type} (a : α) (f : α → Flow β) : (pure a >>= f) = f a := by
  funext h
  simp [bind_apply, pure_apply]

/-- Associativity of sequencing. -/
theorem bind_assoc_flow {α β γ : Type} (m : Flow α) (f : α → Flow β) (g : β → Flow γ) :
    (m >>= f) >>= g = m >>= fun a => f a >>= g := by
  funext h
  simp only [bind_apply]
  rcases m h with ⟨es, e | a⟩
  · rfl
  · simp only []
    rcases f a (h ++ es) with ⟨es2, e | b⟩
    · rfl
    · simp [List.append_assoc]

theorem issued_append (a b : List Event) : issued (a ++ b) = issued a ++ issued b := by
  induction a with
  | nil => rfl
  | cons e es ih => cases e <;> simp [issued, ih]

theorem opened_append (a b : List Event) : opened (a ++ b) = opened a ++ opened b := by
  induction a with
  | nil => rfl
  | cons e es ih => cases e <;> simp [opened, ih]

theorem prompts_append (a b : List Event) : prompts (a ++ b) = prompts a ++ prompts b := by
  induction a with
  | nil => rfl
  | cons e es ih => cases e <;> simp [prompts, ih]

theorem issued_echo (r : ExecResult) : issued (echo r) = [] := by
  unfold echo
  split <;> split <;> simp [issued]

theorem opened_echo (r : ExecResult) : opened (echo r) = [] := by
  unfold echo
  split <;> split <;> simp [opened]

/-- One call of `exec`: the command is printed and issued; when it fails the
error is thrown at once, otherwise its output is echoed. -/
theorem exec_apply (w : World) (c : JSString) (h : List Event) :
    exec w c h =
      match w.cpExec (issued h).length c with
      | .ok r => (.log (js "$ " ++ c) :: .spawn c :: echo r, .ok r)
      | .error e => ([.log (js "$ " ++ c), .spawn c], .error e) := by
  simp only [exec, bind_apply, emit, issued_append, issued, List.append_nil]
  rcases w.cpExec (issued h).length c with e | r
  · rfl
  · simp only [echo]
    by_cases h1 : r.stdout = [] <;> by_cases h2 : r.stderr = [] <;>
      simp [h1, h2, bind_apply, pure_apply, emit]

theorem execAll_spec (w : World) (cs : List JSString) (h : List Event) :
    issued (execAll w cs h).1 = issuedOf w (issued h).length cs ∧
    opened (execAll w cs h).1 = [] ∧
    (execAll w cs h).2 = resultOf w (issued h).length cs := by
  induction cs generalizing h with
  | nil => simp [execAll, pure_apply, issued, opened, issuedOf, resultOf, firstFailure]
  | cons c cs ih =>
    simp only [execAll, bind_apply, exec_apply, issuedOf, resultOf, firstFailure]
    rcases hc : w.cpExec (issued h).length c with e | r
    · simp [issued, opened]
    · have ih2 := ih (h ++ .log (js "$ " ++ c) :: .spawn c :: echo r)
      have hlen : (issued (h ++ .log (js "$ " ++ c) :: .spawn c :: echo r)).length =
          (issued h).length + 1 := by
        simp [issued_append, issued, issued_echo]
      rw [hlen] at ih2
      obtain ⟨i1, i2, i3⟩ := ih2
      simp only [issuedOf, resultOf] at i1 i3
      rcases hff : firstFailure w ((issued h).length + 1) cs with _ | ⟨i, e⟩ <;>
        simp only [hff] at i1 i3 <;>
        simp [issued, opened, issued_append, opened_append, issued_echo, opened_echo, i1, i2, i3]

/-- Two computations that start with the same command agree as soon as what
follows agrees whenever the command succeeds. -/
theorem exec_bind_congr {β : Type} (w : World) (c : JSString) (k1 k2 : ExecResult → Flow β)
    (h : List Event)
    (hk : ∀ r, w.cpExec (issued h).length c = .ok r →
      k1 r (h ++ .log (js "$ " ++ c) :: .spawn c :: echo r) =
        k2 r (h ++ .log (js "$ " ++ c) :: .spawn c :: echo r)) :
    (exec w c >>= k1) h = (exec w c >>= k2) h := by
  rw [bind_apply, bind_apply, exec_apply]
  rcases hc : w.cpExec (issued h).length c with e | r
  · rfl
  · simp only [hk r hc]

/-- The workflow runs its command sequence in order and then opens the browser. -/
theorem workflow_eq (w : World) (method : JSString) (answers : Answers)
    (defaultBranch branch path : JSString) (h : List Event) (hh : issued h = []) :
    workflow w method answers defaultBranch branch path h =
      (execAll w (workflowCommands method answers defaultBranch branch (capturedCommit w method))
        >>= fun _ => openBrowser w (compareUrl path answers)) h := by
  by_cases hm : method = SELECT_FILES
  · simp only [workflow, workflowCommands, hm, if_true, capturedCommit, execAll, List.cons_append,
      List.nil_append, bind_assoc_flow, pure_bind_flow]
    refine exec_bind_congr _ _ _ _ _ (fun r0 _ => ?_)
    refine exec_bind_congr _ _ _ _ _ (fun r1 _ => ?_)
    refine exec_bind_congr _ _ _ _ _ (fun r2 h2 => ?_)
    have h2' : w.cpExec 2 (js "git rev-parse HEAD") = .ok r2 := by
      simpa [issued_append, issued, issued_echo, hh] using h2
    simp only [h2']
  · simp only [workflow, workflowCommands, hm, if_false, capturedCommit, execAll, List.cons_append,
      List.nil_append, bind_assoc_flow, pure_bind_flow]
    refine exec_bind_congr _ _ _ _ _ (fun r2 h2 => ?_)
    have h2' : w.cpExec 0 (js "git rev-parse HEAD") = .ok r2 := by
      simpa [issued_append, issued, issued_echo, hh] using h2
    simp only [h2']

/-! ## The run as a whole -/

theorem preflight_reject (files : List StatusEntry)
    (hbad : ∃ e ∈ files, e.x ≠ js " " ∧ e.x ≠ js "?") (h : List Event) :
    preflight files h = ([], .error (Thrown.ofMessage (js "You are not allowed to have added files"))) := by
  obtain ⟨e, he, h1, h2⟩ := hbad
  have hany : files.any (fun e => !([js " ", js "?"].contains e.x)) = true := by
    rw [List.any_eq_true]
    exact ⟨e, he, by simp [h1, h2]⟩
  rw [preflight, if_pos hany]
  rfl

theorem preflight_pass (files : List StatusEntry)
    (hclean : ∀ e ∈ files, e.x = js " " ∨ e.x = js "?") (h : List Event) :
    preflight files h = ([], .ok ()) := by
  have hany : files.any (fun e => !([js " ", js "?"].contains e.x)) = false := by
    rw [List.any_eq_false]
    intro e he
    rcases hclean e he with h1 | h1 <;> simp [h1]
  rw [preflight, if_neg (by rw [hany]; exact Bool.false_ne_true)]
  rfl

/-- A run whose status list has a staged entry stops right after the status
query. -/
theorem main_of_staged (w : World) (files : List StatusEntry) (hs : w.getStatus = .ok files)
    (hbad : ∃ e ∈ files, e.x ≠ js " " ∧ e.x ≠ js "?") :
    main w = ⟨[.query .status, .logError (js "You are not allowed to have added files")], 1⟩ := by
  have hp : printed (Thrown.ofMessage (js "You are not allowed to have added files")) = (js "You are not allowed to have added files") := by decide
  simp only [main, script]
  rw [bind_apply]
  simp only [getStatus, bind_apply, emit, await, hs, List.nil_append, List.append_nil]
  rw [preflight_reject files hbad]
  simp [hp]

/-- A run whose status list has no staged entry goes on to the next query. -/
theorem main_of_clean (w : World) (files : List StatusEntry) (hs : w.getStatus = .ok files)
    (hclean : ∀ e ∈ files, e.x = js " " ∨ e.x = js "?") :
    ∃ rest code, main w = ⟨.query .status :: .query .remoteOriginUrl :: rest, code⟩ := by
  simp only [main, script]
  rw [bind_apply]
  simp only [getStatus, bind_apply, emit, await, hs, List.nil_append, List.append_nil]
  rw [preflight_pass files hclean]
  simp only [List.nil_append, List.singleton_append]
  split
  · rename_i es a heq
    simp only [Prod.mk.injEq] at heq
    exact ⟨_, _, by rw [← heq.1]⟩
  · rename_i es a heq
    simp only [Prod.mk.injEq] at heq
    exact ⟨_, _, by rw [← heq.1]; rfl⟩

/-- A run that reaches the workflow: the events before it and the workflow. -/
theorem script_reaches (w : World) (files : List StatusEntry) (origin : JSString)
    (remote : ExecResult) (branch method : JSString) (answers : Answers)
    (hr : ReachesWorkflow w files origin remote branch method answers) :
    script w [] =
      (preamble method files ++
        (workflow w method answers (headBranch remote.stdout) branch (extractPath origin)
          (preamble method files)).1,
       (workflow w method answers (headBranch remote.stdout) branch (extractPath origin)
          (preamble method files)).2) := by
  simp only [script, bind_apply, getStatus, getDefaultBranch, prompt, emit, await, pure_apply,
    hr.status, hr.origin, hr.remote, hr.branch, hr.method, hr.answers,
    preflight_pass files hr.clean, List.nil_append, List.append_nil, List.singleton_append,
    List.cons_append, preamble]

theorem issued_preamble (method : JSString) (files : List StatusEntry) :
    issued (preamble method files) = [] := rfl

theorem opened_preamble (method : JSString) (files : List StatusEntry) :
    opened (preamble method files) = [] := rfl

/-- The observable summary of a run that reaches the workflow. -/
theorem main_summary (w : World) (files : List StatusEntry) (origin : JSString)
    (remote : ExecResult) (branch method : JSString) (answers : Answers)
    (hr : ReachesWorkflow w files origin remote branch method answers) :
    issued (main w).events = issuedOf w 0 (commandSequence w method answers remote branch) ∧
    (∀ e, resultOf w 0 (commandSequence w method answers remote branch) = .error e →
      opened (main w).events = [] ∧ (main w).exitCode = 1 ∧
      (main w).events.getLast? = some (.logError (printed e))) ∧
    (resultOf w 0 (commandSequence w method answers remote branch) = .ok () →
      opened (main w).events = [compareUrl (extractPath origin) answers]) := by
  have hx := execAll_spec w (commandSequence w method answers remote branch)
    (preamble method files)
  rw [issued_preamble, List.length_nil] at hx
  obtain ⟨x1, x2, x3⟩ := hx
  have hmain : main w =
      match (execAll w (commandSequence w method answers remote branch)
          (preamble method files)) with
      | (es, .ok _) =>
        (match w.openUrl (compareUrl (extractPath origin) answers) with
          | .ok _ => ⟨preamble method files ++ (es ++
              [.openBrowser (compareUrl (extractPath origin) answers)]), 0⟩
          | .error e => ⟨preamble method files ++ (es ++
              [.openBrowser (compareUrl (extractPath origin) answers)]) ++
              [.logError (printed e)], 1⟩)
      | (es, .error e) => ⟨preamble method files ++ es ++ [.logError (printed e)], 1⟩ := by
    simp only [main, script_reaches w files origin remote branch method answers hr]
    rw [workflow_eq _ _ _ _ _ _ _ (issued_preamble method files)]
    simp only [commandSequence, bind_apply, openBrowser]
    rcases execAll w _ (preamble method files) with ⟨es, e | a⟩
    · rfl
    · simp only []
      rcases w.openUrl (compareUrl (extractPath origin) answers) with e | a <;> rfl
  rw [hmain]
  rcases hex : execAll w (commandSequence w method answers remote branch)
    (preamble method files) with ⟨es, e | a⟩
  · rw [hex] at x1 x2 x3
    simp only at x1 x2 x3
    refine ⟨?_, ?_, ?_⟩
    · simp [issued_append, issued_preamble, issued, x1]
    · intro e2 he2
      rw [← x3] at he2
      cases he2
      simp [opened_append, opened_preamble, opened, x2]
    · intro hok
      rw [← x3] at hok
      cases hok
  · rw [hex] at x1 x2 x3
    simp only at x1 x2 x3
    refine ⟨?_, ?_, ?_⟩
    · rcases w.openUrl (compareUrl (extractPath origin) answers) with e | u <;>
        simp [issued_append, issued_preamble, issued, x1]
    · intro e2 he2
      rw [← x3] at he2
      cases he2
    · intro _
      rcases w.openUrl (compareUrl (extractPath origin) answers) with e | u <;>
        simp [opened_append, opened_preamble, opened, x2]

/-- A run that reaches the workflow ends with status 0 only if no command of
the sequence failed. -/
theorem exit_zero_result (w : World) (files : List StatusEntry) (origin : JSString)
    (remote : ExecResult) (branch method : JSString) (answers : Answers)
    (hr : ReachesWorkflow w files origin remote branch method answers)
    (h0 : (main w).exitCode = 0) :
    firstFailure w 0 (commandSequence w method answers remote branch) = none := by
  have hs := (main_summary w files origin remote branch method answers hr).2.1
  rcases hff : firstFailure w 0 (commandSequence w method answers remote branch) with _ | ⟨i, e⟩
  · rfl
  · have := (hs e (by simp [resultOf, hff])).2.1
    omega

/-! ## The first failure of a command list -/

theorem firstFailure_of_fails (w : World) (cs : List JSString) (n k : Nat) (c : JSString)
    (e : Thrown) (hc : cs[k]? = some c) (hf : w.cpExec (n + k) c = .error e)
    (hok : ∀ j c2, j < k → cs[j]? = some c2 → ∃ r, w.cpExec (n + j) c2 = .ok r) :
    firstFailure w n cs = some (k, e) := by
  induction cs generalizing n k with
  | nil => simp at hc
  | cons d ds ih =>
    cases k with
    | zero =>
      simp only [List.getElem?_cons_zero, Option.some.injEq] at hc
      subst hc
      simp only [Nat.add_zero] at hf
      simp [firstFailure, hf]
    | succ k =>
      obtain ⟨r, hr⟩ := hok 0 d (Nat.succ_pos k) (by simp)
      simp only [Nat.add_zero] at hr
      have hc2 : ds[k]? = some c := by simpa using hc
      have hf2 : w.cpExec (n + 1 + k) c = .error e := by
        rw [← hf]
        congr 1
        omega
      have hok2 : ∀ j c2, j < k → ds[j]? = some c2 → ∃ r, w.cpExec (n + 1 + j) c2 = .ok r := by
        intro j c2 hj hj2
        obtain ⟨r2, hr2⟩ := hok (j + 1) c2 (by omega) (by simpa using hj2)
        exact ⟨r2, by rw [← hr2]; congr 1; omega⟩
      simp [firstFailure, hr, ih (n + 1) k hc2 hf2 hok2]

theorem firstFailure_none (w : World) (cs : List JSString) (n : Nat)
    (h : firstFailure w n cs = none) :
    ∀ j c, cs[j]? = some c → ∃ r, w.cpExec (n + j) c = .ok r := by
  induction cs generalizing n with
  | nil => intro j c hc; simp at hc
  | cons d ds ih =>
    intro j c hc
    simp only [firstFailure] at h
    rcases hd : w.cpExec n d with e | r
    · simp [hd] at h
    · simp only [hd, Option.map_eq_none'] at h
      cases j with
      | zero =>
        simp only [List.getElem?_cons_zero, Option.some.injEq] at hc
        subst hc
        exact ⟨r, by simpa using hd⟩
      | succ j =>
        obtain ⟨r2, hr2⟩ := ih (n + 1) h j c (by simpa using hc)
        exact ⟨r2, by rw [← hr2]; congr 1; omega⟩

theorem firstFailure_all_ok (w : World) (cs : List JSString) (n : Nat)
    (h : ∀ m c, ∃ r, w.cpExec m c = .ok r) : firstFailure w n cs = none := by
  induction cs generalizing n with
  | nil => rfl
  | cons d ds ih =>
    obtain ⟨r, hr⟩ := h n d
    simp [firstFailure, hr, ih (n + 1)]

/-! ## The preflight check -/

/-- C1: when the status list `files` has been read, the preflight check rejects
with "You are not allowed to have added files" exactly when some entry has a
first code that is neither " " nor "?"; the run then consists of the status
query and the printed error, so no prompt is shown, no workflow command is
issued, the browser is not opened and the exit status is 1. -/
theorem preflight_rejects_iff (w : World) (files : List StatusEntry)
    (hs : w.getStatus = .ok files) :
    (∀ h, preflight files h =
        ([], .error (Thrown.ofMessage (js "You are not allowed to have added files"))) ↔
      ∃ e ∈ files, e.x ≠ js " " ∧ e.x ≠ js "?") ∧
    (main w = ⟨[.query .status, .logError (js "You are not allowed to have added files")], 1⟩ ↔
      ∃ e ∈ files, e.x ≠ js " " ∧ e.x ≠ js "?") ∧
    ((∃ e ∈ files, e.x ≠ js " " ∧ e.x ≠ js "?") →
      prompts (main w).events = [] ∧ issued (main w).events = [] ∧
      opened (main w).events = [] ∧ (main w).exitCode = 1) := by
  have hdich : (∃ e ∈ files, e.x ≠ js " " ∧ e.x ≠ js "?") ∨
      ∀ e ∈ files, e.x = js " " ∨ e.x = js "?" := by
    by_cases hb : ∃ e ∈ files, e.x ≠ js " " ∧ e.x ≠ js "?"
    · exact Or.inl hb
    · right
      intro e he
      by_contra hne
      exact hb ⟨e, he, fun h1 => hne (Or.inl h1), fun h2 => hne (Or.inr h2)⟩
  refine ⟨fun h => ⟨fun hrej => ?_, fun hbad => preflight_reject files hbad h⟩,
    ⟨fun hmain => ?_, fun hbad => main_of_staged w files hs hbad⟩, fun hbad => ?_⟩
  · rcases hdich with hbad | hclean
    · exact hbad
    · rw [preflight_pass files hclean h] at hrej
      simp at hrej
  · rcases hdich with hbad | hclean
    · exact hbad
    · obtain ⟨rest, code, hrun⟩ := main_of_clean w files hs hclean
      rw [hrun] at hmain
      simp at hmain
  · rw [main_of_staged w files hs hbad]
    simp [prompts, issued, opened]

/-- C1, at a status list with one staged file. -/
theorem preflight_rejects_iff_witness :
    main (demoWorld LAST_COMMIT [⟨js "A", js " ", js "a.txt"⟩]) =
      ⟨[.query .status, .logError (js "You are not allowed to have added files")], 1⟩ :=
  (preflight_rejects_iff (demoWorld LAST_COMMIT [⟨js "A", js " ", js "a.txt"⟩])
    [⟨js "A", js " ", js "a.txt"⟩] rfl).2.1.mpr (by decide)

/-- C8 (as stated, refuted): a status list whose only entry has the second code
"M" passes the preflight check, and the run goes on to its end. -/
theorem preflight_ignores_second_code :
    Event.query .remoteOriginUrl ∈
      (main (demoWorld LAST_COMMIT [⟨js " ", js "M", js "a.txt"⟩])).events ∧
    (main (demoWorld LAST_COMMIT [⟨js " ", js "M", js "a.txt"⟩])).exitCode = 0 ∧
    ¬ (∀ e ∈ [(⟨js " ", js "M", js "a.txt"⟩ : StatusEntry)],
      (e.x = js " " ∨ e.x = js "?") ∧ (e.y = js " " ∨ e.y = js "?")) := by
  decide

/-- C8 (amended): whenever the run proceeds past the preflight check (it makes
the next query, for the origin URL), every status entry has a first code `x`
that is " " or "?". -/
theorem past_preflight_first_code (w : World) (files : List StatusEntry)
    (hs : w.getStatus = .ok files)
    (hp : Event.query .remoteOriginUrl ∈ (main w).events) :
    ∀ e ∈ files, e.x = js " " ∨ e.x = js "?" := by
  intro e he
  by_contra hne
  have hbad : ∃ e ∈ files, e.x ≠ js " " ∧ e.x ≠ js "?" :=
    ⟨e, he, fun h1 => hne (Or.inl h1), fun h2 => hne (Or.inr h2)⟩
  rw [main_of_staged w files hs hbad] at hp
  simp at hp

/-- C8 (amended), at a status list with one modified and one untracked file. -/
theorem past_preflight_first_code_witness :
    Event.query .remoteOriginUrl ∈ (main (demoWorld LAST_COMMIT
      [⟨js " ", js "M", js "a.txt"⟩, ⟨js "?", js "?", js "b.txt"⟩])).events ∧
    ∀ e ∈ [(⟨js " ", js "M", js "a.txt"⟩ : StatusEntry), ⟨js "?", js "?", js "b.txt"⟩],
      e.x = js " " ∨ e.x = js "?" :=
  ⟨by decide,
   past_preflight_first_code
    (demoWorld LAST_COMMIT [⟨js " ", js "M", js "a.txt"⟩, ⟨js "?", js "?", js "b.txt"⟩])
    [⟨js " ", js "M", js "a.txt"⟩, ⟨js "?", js "?", js "b.txt"⟩] rfl (by decide)⟩

/-! ## The command sequence -/

/-- C6: in a run that reaches the workflow with the method "Last commit", the
commands issued are the first ones of `git rev-parse HEAD`,
`git reset --hard HEAD~1`, `git fetch`, `git checkout <defaultBranch>`,
`git pull`, `git checkout -b <combinedBranch>`, `git cherry-pick <commit>`,
`git push --set-upstream origin <combinedBranch>`, `git checkout <branch>`, and
all nine when every command succeeds, so no `git add` and no `git commit` is
issued; with "Select files" the same holds for that list preceded by one
`git add` of the chosen files and one `git commit -m` of the message. -/
theorem command_sequence (w : World) (files : List StatusEntry) (origin : JSString)
    (remote : ExecResult) (branch method : JSString) (answers : Answers)
    (hr : ReachesWorkflow w files origin remote branch method answers) :
    (method = LAST_COMMIT →
      (∃ n, issued (main w).events =
        [js "git rev-parse HEAD", js "git reset --hard HEAD~1", js "git fetch",
         js "git checkout " ++ headBranch remote.stdout, js "git pull",
         js "git checkout -b " ++ combinedBranch answers,
         js "git cherry-pick " ++ capturedCommit w method,
         js "git push --set-upstream origin " ++ combinedBranch answers,
         js "git checkout " ++ branch].take n) ∧
      ((∀ m c, ∃ r, w.cpExec m c = .ok r) →
        issued (main w).events =
          [js "git rev-parse HEAD", js "git reset --hard HEAD~1", js "git fetch",
           js "git checkout " ++ headBranch remote.stdout, js "git pull",
           js "git checkout -b " ++ combinedBranch answers,
           js "git cherry-pick " ++ capturedCommit w method,
           js "git push --set-upstream origin " ++ combinedBranch answers,
           js "git checkout " ++ branch])) ∧
    (method = SELECT_FILES →
      (∃ n, issued (main w).events =
        [js "git add " ++ join (js " ") (answers.files.map JSON.stringify),
         js "git commit -m " ++ JSON.stringify answers.message,
         js "git rev-parse HEAD", js "git reset --hard HEAD~1", js "git fetch",
         js "git checkout " ++ headBranch remote.stdout, js "git pull",
         js "git checkout -b " ++ combinedBranch answers,
         js "git cherry-pick " ++ capturedCommit w method,
         js "git push --set-upstream origin " ++ combinedBranch answers,
         js "git checkout " ++ branch].take n) ∧
      ((∀ m c, ∃ r, w.cpExec m c = .ok r) →
        issued (main w).events =
          [js "git add " ++ join (js " ") (answers.files.map JSON.stringify),
           js "git commit -m " ++ JSON.stringify answers.message,
           js "git rev-parse HEAD", js "git reset --hard HEAD~1", js "git fetch",
           js "git checkout " ++ headBranch remote.stdout, js "git pull",
           js "git checkout -b " ++ combinedBranch answers,
           js "git cherry-pick " ++ capturedCommit w method,
           js "git push --set-upstream origin " ++ combinedBranch answers,
           js "git checkout " ++ branch])) := by
  have hissued := (main_summary w files origin remote branch method answers hr).1
  have htake : ∃ n, issuedOf w 0 (commandSequence w method answers remote branch) =
      (commandSequence w method answers remote branch).take n := by
    unfold issuedOf
    rcases firstFailure w 0 (commandSequence w method answers remote branch) with _ | ⟨i, e⟩
    · exact ⟨(commandSequence w method answers remote branch).length, by simp⟩
    · exact ⟨i + 1, rfl⟩
  have hall : (∀ m c, ∃ r, w.cpExec m c = .ok r) →
      issuedOf w 0 (commandSequence w method answers remote branch) =
        commandSequence w method answers remote branch := by
    intro h
    simp [issuedOf, firstFailure_all_ok w _ 0 h]
  have hne : LAST_COMMIT ≠ SELECT_FILES := by decide
  rw [hissued]
  constructor
  · intro hm
    have hseq : commandSequence w method answers remote branch =
        [js "git rev-parse HEAD", js "git reset --hard HEAD~1", js "git fetch",
         js "git checkout " ++ headBranch remote.stdout, js "git pull",
         js "git checkout -b " ++ combinedBranch answers,
         js "git cherry-pick " ++ capturedCommit w method,
         js "git push --set-upstream origin " ++ combinedBranch answers,
         js "git checkout " ++ branch] := by
      simp [commandSequence, workflowCommands, hm, hne]
    rw [← hseq]
    exact ⟨htake, hall⟩
  · intro hm
    have hseq : commandSequence w method answers remote branch =
        [js "git add " ++ join (js " ") (answers.files.map JSON.stringify),
         js "git commit -m " ++ JSON.stringify answers.message,
         js "git rev-parse HEAD", js "git reset --hard HEAD~1", js "git fetch",
         js "git checkout " ++ headBranch remote.stdout, js "git pull",
         js "git checkout -b " ++ combinedBranch answers,
         js "git cherry-pick " ++ capturedCommit w method,
         js "git push --set-upstream origin " ++ combinedBranch answers,
         js "git checkout " ++ branch] := by
      simp [commandSequence, workflowCommands, hm]
    rw [← hseq]
    exact ⟨htake, hall⟩

/-- C6, at a run of the "Last commit" method in which every command succeeds. -/
theorem command_sequence_witness :
    issued (main (demoWorld LAST_COMMIT [⟨js " ", js "M", js "a.txt"⟩])).events =
      [js "git rev-parse HEAD", js "git reset --hard HEAD~1", js "git fetch",
       js "git checkout main", js "git pull", js "git checkout -b \"fixes/my-fix\"",
       js "git cherry-pick abc123\n", js "git push --set-upstream origin \"fixes/my-fix\"",
       js "git checkout work"] :=
  ((command_sequence (demoWorld LAST_COMMIT [⟨js " ", js "M", js "a.txt"⟩])
    [⟨js " ", js "M", js "a.txt"⟩] (js "git@github.com:org/repo.git")
    ⟨js "* remote origin\n  HEAD branch: main\n  Remote branch:\n", []⟩ (js "work")
    LAST_COMMIT ⟨[js "a.txt"], js "fixes", js "my-fix", js "msg"⟩
    ⟨rfl, by decide, rfl, rfl, rfl, rfl, rfl⟩).1 rfl).2 (fun _ c => ⟨_, rfl⟩)

/-! ## Failure of a command -/

/-- C7: in a run that reaches the workflow, if the `k`-th command of the
sequence fails and the ones before it succeed, the commands issued are exactly
the first `k` of the sequence, the browser is not opened, the handler prints
the error and the exit status is 1; and a run that ends with status 0 has
issued the whole sequence, every command of which succeeded. -/
theorem failure_aborts (w : World) (files : List StatusEntry) (origin : JSString)
    (remote : ExecResult) (branch method : JSString) (answers : Answers)
    (hr : ReachesWorkflow w files origin remote branch method answers) :
    (∀ k c e, 1 ≤ k →
      (commandSequence w method answers remote branch)[k - 1]? = some c →
      w.cpExec (k - 1) c = .error e →
      (∀ j c2, j < k - 1 → (commandSequence w method answers remote branch)[j]? = some c2 →
        ∃ r, w.cpExec j c2 = .ok r) →
      issued (main w).events = (commandSequence w method answers remote branch).take k ∧
      opened (main w).events = [] ∧
      (main w).exitCode = 1 ∧
      (main w).events.getLast? = some (.logError (printed e))) ∧
    ((main w).exitCode = 0 →
      issued (main w).events = commandSequence w method answers remote branch ∧
      ∀ j c, (commandSequence w method answers remote branch)[j]? = some c →
        ∃ r, w.cpExec j c = .ok r) := by
  obtain ⟨hissued, hfail, _⟩ := main_summary w files origin remote branch method answers hr
  constructor
  · intro k c e hk hc hf hok
    have hff : firstFailure w 0 (commandSequence w method answers remote branch) =
        some (k - 1, e) :=
      firstFailure_of_fails w _ 0 (k - 1) c e hc (by simpa using hf)
        (fun j c2 hj hj2 => by simpa using hok j c2 hj hj2)
    have hk1 : k - 1 + 1 = k := by omega
    refine ⟨?_, hfail e (by simp [resultOf, hff])⟩
    rw [hissued]
    simp [issuedOf, hff, hk1]
  · intro h0
    have hnone := exit_zero_result w files origin remote branch method answers hr h0
    refine ⟨by rw [hissued]; simp [issuedOf, hnone], fun j c hc => ?_⟩
    simpa using firstFailure_none w _ 0 hnone j c hc

/-- C7, at a run of the "Select files" method whose fourth command fails. -/
theorem failure_aborts_witness :
    issued (main failingWorld).events =
      [js "git add \"a.txt\"", js "git commit -m \"msg\"", js "git rev-parse HEAD",
       js "git reset --hard HEAD~1"] ∧
    opened (main failingWorld).events = [] ∧
    (main failingWorld).exitCode = 1 ∧
    (main failingWorld).events.getLast? = some (.logError (js "boom")) :=
  (failure_aborts failingWorld [⟨js "?", js "?", js "a.txt"⟩] (js "git@github.com:org/repo.git")
    ⟨js "* remote origin\n  HEAD branch: main\n", []⟩ (js "work") SELECT_FILES
    ⟨[js "a.txt"], js "feature", js "thing", js "msg"⟩
    ⟨rfl, by decide, rfl, rfl, rfl, rfl, rfl⟩).1 4 (js "git reset --hard HEAD~1")
    (Thrown.ofMessage (js "boom")) (by decide) (by decide) rfl
    (fun j _ hj _ => ⟨⟨[], []⟩, by
      have h3 : j ≠ 3 := by omega
      simp [failingWorld, h3]⟩)

/-! ## The comparison URL -/

/-- A string without control characters, quotes, backslashes and surrogates is
quoted as it stands. -/
theorem quoteBody_plain (s : JSString)
    (h : ∀ c ∈ s, 32 ≤ c ∧ c ≠ 34 ∧ c ≠ 92 ∧ c < 0xD800) : quoteBody s = s := by
  have hunit : ∀ c, (32 ≤ c ∧ c ≠ 34 ∧ c ≠ 92 ∧ c < 0xD800) → quoteUnit c = [c] := by
    intro c ⟨h1, h2, h3, h4⟩
    have e1 : c ≠ 8 := by omega
    have e2 : c ≠ 9 := by omega
    have e3 : c ≠ 10 := by omega
    have e4 : c ≠ 12 := by omega
    have e5 : c ≠ 13 := by omega
    have e6 : ¬ c < 32 := by omega
    have e7 : ¬ 0xD800 ≤ c := by omega
    have e8 : ¬ 0xDC00 ≤ c := by omega
    simp [quoteUnit, isLeadingSurrogate, isTrailingSurrogate, e1, e2, e3, e4, e5, e6, e7, e8,
      h2, h3]
  induction s with
  | nil => rfl
  | cons c cs ih =>
    have hc := h c (by simp)
    have hcs := ih fun d hd => h d (by simp [hd])
    cases cs with
    | nil => simpa [quoteBody] using hunit c hc
    | cons d ds =>
      have hlead : isLeadingSurrogate c = false := by
        have : ¬ 0xD800 ≤ c := by omega
        simp [isLeadingSurrogate, this]
      simp [quoteBody, hlead, hunit c hc, hcs]

/-- C3 (the code at the failing input): with type `fixes`, the valid branch
name `my-fix` and the path `org/repo`, the URL handed to the browser opener is
`https://github.com/org/repo/compare/"fixes/my-fix"?expand=1`, with a double
quote on each side of the branch segment, and not the URL of the claim; the
same holds for both types, every valid branch name and every path. -/
theorem compare_url_quoted :
    branchValidate (js "my-fix") = .bool true ∧
    opened (main (demoWorld LAST_COMMIT [])).events =
      [js "https://github.com/org/repo/compare/\"fixes/my-fix\"?expand=1"] ∧
    opened (main (demoWorld LAST_COMMIT [])).events ≠
      [js "https://github.com/org/repo/compare/fixes/my-fix?expand=1"] ∧
    (∀ (type name path : JSString) (files : List JSString) (message : JSString),
      type = js "feature" ∨ type = js "fixes" → branchValidate name = .bool true →
      compareUrl path ⟨files, type, name, message⟩ =
        js "https://github.com/" ++ path ++ js "/compare/" ++ js "\"" ++ type ++ js "/" ++
          name ++ js "\"" ++ js "?expand=1") := by
  refine ⟨by decide, by decide, by decide, ?_⟩
  intro type name path files message htype hname
  have hbranch := ((test_branchPattern name).mp (by
    unfold branchValidate at hname
    cases ht : RegExp.test branchPattern name
    · simp [ht] at hname
    · rfl)).2
  have hplain : ∀ c ∈ type ++ js "/" ++ name, 32 ≤ c ∧ c ≠ 34 ∧ c ≠ 92 ∧ c < 0xD800 := by
    intro c hc
    simp only [List.mem_append] at hc
    rcases hc with (hc | hc) | hc
    · rcases htype with ht | ht <;> subst ht <;> revert c <;> decide
    · revert c
      decide
    · have h1 : 'a'.toNat = 97 := by decide
      have h2 : 'z'.toNat = 122 := by decide
      have h3 : '-'.toNat = 45 := by decide
      rcases hbranch c hc with ⟨ha, hz⟩ | hd
      · rw [h1] at ha
        rw [h2] at hz
        omega
      · rw [h3] at hd
        omega
  have hq : js "\"" = [34] := by decide
  have hqb := quoteBody_plain _ hplain
  simp only [compareUrl, combinedBranch, JSON.stringify, hqb, hq]
  simp [List.append_assoc]

end Gitpr
